import Mathlib

/-
Verification of the x86 hardware-abstraction layer (src/x86.h) of the
xv6 kernel fragment: the trap-frame layout, the descriptor-table load
encoding, the fill primitives (stosb/stosl), the atomic exchange, the
bulk port write, and the interrupt-flag instructions.
-/

namespace X86

/-- Fields of struct trapframe from src/x86.h, one constructor per C
field, in the exact declaration order of the struct. -/
inductive TFField where
  | edi | esi | ebp | oesp | ebx | edx | ecx | eax
  | gs | padding1 | fs | padding2 | es | padding3 | ds | padding4
  | trapno
  | err | eip | cs | padding5 | eflags
  | esp | ss | padding6
  deriving DecidableEq, Repr

/-- Size in bytes of each trapframe field: `uint` fields are 4 bytes and
`ushort` fields are 2 bytes, following the C declarations. -/
def fieldSize : TFField → Nat
  | .edi => 4
  | .esi => 4
  | .ebp => 4
  | .oesp => 4
  | .ebx => 4
  | .edx => 4
  | .ecx => 4
  | .eax => 4
  | .gs => 2
  | .padding1 => 2
  | .fs => 2
  | .padding2 => 2
  | .es => 2
  | .padding3 => 2
  | .ds => 2
  | .padding4 => 2
  | .trapno => 4
  | .err => 4
  | .eip => 4
  | .cs => 2
  | .padding5 => 2
  | .eflags => 4
  | .esp => 4
  | .ss => 2
  | .padding6 => 2

/-- The trapframe fields in declaration order, as laid out in memory:
the struct has no implicit compiler padding because every 2-byte field
is paired with an explicit 2-byte padding field, so each field begins
right where the previous one ends. -/
def trapframeFields : List TFField :=
  [.edi, .esi, .ebp, .oesp, .ebx, .edx, .ecx, .eax,
   .gs, .padding1, .fs, .padding2, .es, .padding3, .ds, .padding4,
   .trapno,
   .err, .eip, .cs, .padding5, .eflags,
   .esp, .ss, .padding6]

/-- Byte offset of a trapframe field: the sum of the sizes of all fields
declared before it. -/
def offsetOf (f : TFField) : Nat :=
  ((trapframeFields.takeWhile (fun g => decide (g ≠ f))).map fieldSize).sum

/-- The block of registers saved by the `pusha` instruction, the first
eight fields of the struct (comment in the source: "registers as pushed
by pusha"). -/
def pushaBlock : List TFField :=
  [.edi, .esi, .ebp, .oesp, .ebx, .edx, .ecx, .eax]

/-- The segment-selector block of the trapframe: the fields declared
between the pusha block and trapno. -/
def selectorBlock : List TFField :=
  [.gs, .padding1, .fs, .padding2, .es, .padding3, .ds, .padding4]

end X86

namespace X86

/-- Claim C1: the trapframe field byte offsets match the fixed table:
edi at 0, esi at 4, ebp at 8, oesp at 12, ebx at 16, edx at 20, ecx at
24, eax at 28; trapno at 48, right after the four padded selectors; err
at 52 right after trapno; eip at 56; cs at 60 (a 2-byte selector
followed by 2-byte padding); eflags at 64; and the ring-crossing esp at
68 and ss at 72, every 16-bit selector occupying a full 32-bit slot. -/
theorem trapframe_offset_table :
    offsetOf .edi = 0 ∧ offsetOf .esi = 4 ∧ offsetOf .ebp = 8 ∧
    offsetOf .oesp = 12 ∧ offsetOf .ebx = 16 ∧ offsetOf .edx = 20 ∧
    offsetOf .ecx = 24 ∧ offsetOf .eax = 28 ∧
    offsetOf .trapno = 48 ∧
    offsetOf .trapno = offsetOf .padding4 + fieldSize .padding4 ∧
    offsetOf .err = 52 ∧ offsetOf .err = offsetOf .trapno + fieldSize .trapno ∧
    offsetOf .eip = 56 ∧ offsetOf .cs = 60 ∧
    fieldSize .cs = 2 ∧ offsetOf .padding5 = 62 ∧ fieldSize .padding5 = 2 ∧
    offsetOf .eflags = 64 ∧ offsetOf .esp = 68 ∧ offsetOf .ss = 72 ∧
    fieldSize .ss = 2 ∧ offsetOf .padding6 = 74 ∧ fieldSize .padding6 = 2 := by
  decide

/-- Claim C9: the segment-selector block after the general-purpose
register block is exactly gs, fs, es, ds in that order, at byte offsets
32, 36, 40 and 44, each a 2-byte selector immediately followed by a
2-byte padding field, so each selector occupies a full 32-bit slot. -/
theorem trapframe_selector_block :
    (trapframeFields.drop 8).take 8 = selectorBlock ∧
    selectorBlock = [.gs, .padding1, .fs, .padding2, .es, .padding3, .ds, .padding4] ∧
    offsetOf .gs = 32 ∧ offsetOf .fs = 36 ∧ offsetOf .es = 40 ∧ offsetOf .ds = 44 ∧
    fieldSize .gs = 2 ∧ fieldSize .fs = 2 ∧ fieldSize .es = 2 ∧ fieldSize .ds = 2 ∧
    offsetOf .padding1 = offsetOf .gs + 2 ∧ fieldSize .padding1 = 2 ∧
    offsetOf .padding2 = offsetOf .fs + 2 ∧ fieldSize .padding2 = 2 ∧
    offsetOf .padding3 = offsetOf .es + 2 ∧ fieldSize .padding3 = 2 ∧
    offsetOf .padding4 = offsetOf .ds + 2 ∧ fieldSize .padding4 = 2 := by
  decide

/-- Claim C2 counterexample: the block pushed by pusha at the start of
the trapframe has eight 32-bit slots, not seven; the initial run of
4-byte fields in the struct is exactly the pusha block, and its length
is 8. -/
theorem pusha_block_not_seven :
    (trapframeFields.takeWhile (fun f => decide (fieldSize f = 4))) = pushaBlock ∧
    pushaBlock.length ≠ 7 := by
  decide

/-- Claim C2 amended: the general-purpose register block at the start of
the trapframe consists of eight 32-bit values pushed by pusha in the
fixed order edi, esi, ebp, oesp, ebx, edx, ecx, eax, of which the saved
stack-pointer slot oesp (at offset 12) is unused and ignored by
convention. -/
theorem pusha_block_layout :
    trapframeFields.take 8 = pushaBlock ∧
    pushaBlock = [.edi, .esi, .ebp, .oesp, .ebx, .edx, .ecx, .eax] ∧
    pushaBlock.length = 8 ∧
    (∀ f ∈ pushaBlock, fieldSize f = 4) ∧
    TFField.oesp ∈ pushaBlock ∧ offsetOf .oesp = 12 := by
  decide

/-- Descriptor record built by lgdt in src/x86.h: a `ushort pd[3]` with
pd[0] = size-1, pd[1] = (uint)p, pd[2] = (uint)p >> 16; each store into
a ushort slot truncates its value to 16 bits. The base address p is a
32-bit value. -/
def lgdt (p size : Nat) : Nat × Nat × Nat :=
  ((size - 1) % 65536, p % 65536, (p >>> 16) % 65536)

/-- Descriptor record built by lidt in src/x86.h, identical construction
to lgdt: pd[0] = size-1, pd[1] = (uint)p, pd[2] = (uint)p >> 16, each
truncated to 16 bits by the ushort store. -/
def lidt (p size : Nat) : Nat × Nat × Nat :=
  ((size - 1) % 65536, p % 65536, (p >>> 16) % 65536)

/-- Claim C3: for every size in [1, 65536] and every 32-bit base p, both
lgdt and lidt build a descriptor whose limit field equals (size - 1) mod
2^16, whose base-low field equals p AND 0xFFFF, and whose base-high
field equals (p >> 16) AND 0xFFFF. -/
theorem descriptor_encoding (p size : Nat) (h1 : 1 ≤ size)
    (h2 : size ≤ 65536) (hp : p < 4294967296) :
    (lgdt p size).1 = (size - 1) % 65536 ∧
    (lgdt p size).2.1 = Nat.land p 65535 ∧
    (lgdt p size).2.2 = Nat.land (p >>> 16) 65535 ∧
    lidt p size = lgdt p size ∧
    (lgdt p size).1 = size - 1 := by
  have hmask : (65535 : Nat) = 2 ^ 16 - 1 := by norm_num
  have hlow : Nat.land p 65535 = p % 65536 := by
    rw [hmask]; exact Nat.and_pow_two_sub_one_eq_mod p 16
  have hhigh : Nat.land (p >>> 16) 65535 = (p >>> 16) % 65536 := by
    rw [hmask]; exact Nat.and_pow_two_sub_one_eq_mod (p >>> 16) 16
  refine ⟨rfl, hlow.symm, hhigh.symm, rfl, ?_⟩
  have : size - 1 < 65536 := by omega
  simp [lgdt, Nat.mod_eq_of_lt this]

/-- Witness for descriptor_encoding at p = 0x12345678, size = 2048. -/
theorem descriptor_encoding_witness :
    (lgdt 305419896 2048).1 = (2048 - 1) % 65536 ∧
    (lgdt 305419896 2048).2.1 = Nat.land 305419896 65535 ∧
    (lgdt 305419896 2048).2.2 = Nat.land (305419896 >>> 16) 65535 ∧
    lidt 305419896 2048 = lgdt 305419896 2048 ∧
    (lgdt 305419896 2048).1 = 2048 - 1 :=
  descriptor_encoding 305419896 2048 (by decide) (by decide) (by decide)

/-- Byte-addressed memory: a map from byte address to the byte stored
there. -/
def Mem : Type := Nat → Nat

/-- Semantics of `cld; rep stosb` from src/x86.h: with direction flag
clear, each iteration stores AL (the low byte of the int argument
`data`) at the address in EDI, increments EDI by one and decrements ECX,
repeating `cnt` times. -/
def stosb (mem : Mem) (addr data cnt : Nat) : Mem :=
  match cnt with
  | 0 => mem
  | n + 1 =>
    stosb (fun a => if a = addr then data % 256 else mem a) (addr + 1) data n

/-- Store of EAX (the 32-bit value of the int argument `data`) at
address `addr`, little-endian: byte j of the value goes to `addr + j`. -/
def storeWord (mem : Mem) (addr data : Nat) : Mem :=
  fun a =>
    if a = addr then data % 256
    else if a = addr + 1 then data / 256 % 256
    else if a = addr + 2 then data / 65536 % 256
    else if a = addr + 3 then data / 16777216 % 256
    else mem a

/-- Semantics of `cld; rep stosl` from src/x86.h: each iteration stores
EAX (32 bits) at the address in EDI, increments EDI by four and
decrements ECX, repeating `cnt` times; `cnt` counts 4-byte words. -/
def stosl (mem : Mem) (addr data cnt : Nat) : Mem :=
  match cnt with
  | 0 => mem
  | n + 1 => stosl (storeWord mem addr data) (addr + 4) data n

/-- Little-endian read of the 32-bit word at address `addr`. -/
def readWord (mem : Mem) (addr : Nat) : Nat :=
  mem addr + 256 * mem (addr + 1) + 65536 * mem (addr + 2) +
    16777216 * mem (addr + 3)

theorem stosb_outside (cnt : Nat) : ∀ (mem : Mem) (addr data a : Nat),
    a < addr ∨ addr + cnt ≤ a → stosb mem addr data cnt a = mem a := by
  induction cnt with
  | zero => intro mem addr data a _; rfl
  | succ n ih =>
    intro mem addr data a h
    show stosb (fun b => if b = addr then data % 256 else mem b) (addr + 1) data n a = mem a
    rw [ih _ (addr + 1) data a (by omega)]
    have : a ≠ addr := by omega
    simp [this]

theorem stosb_inside (cnt : Nat) : ∀ (mem : Mem) (addr data a : Nat),
    addr ≤ a → a < addr + cnt → stosb mem addr data cnt a = data % 256 := by
  induction cnt with
  | zero => intro mem addr data a h1 h2; omega
  | succ n ih =>
    intro mem addr data a h1 h2
    show stosb (fun b => if b = addr then data % 256 else mem b) (addr + 1) data n a = data % 256
    by_cases ha : a = addr
    · rw [stosb_outside n _ (addr + 1) data a (by omega)]
      simp [ha]
    · exact ih _ (addr + 1) data a (by omega) (by omega)

theorem stosl_outside (cnt : Nat) : ∀ (mem : Mem) (addr data a : Nat),
    a < addr ∨ addr + 4 * cnt ≤ a → stosl mem addr data cnt a = mem a := by
  induction cnt with
  | zero => intro mem addr data a _; rfl
  | succ n ih =>
    intro mem addr data a h
    show stosl (storeWord mem addr data) (addr + 4) data n a = mem a
    rw [ih _ (addr + 4) data a (by omega)]
    have h0 : a ≠ addr := by omega
    have h1 : a ≠ addr + 1 := by omega
    have h2 : a ≠ addr + 2 := by omega
    have h3 : a ≠ addr + 3 := by omega
    simp [storeWord, h0, h1, h2, h3]

theorem readWord_storeWord (mem : Mem) (addr data : Nat) :
    readWord (storeWord mem addr data) addr = data % 4294967296 := by
  have h0 : storeWord mem addr data addr = data % 256 := by simp [storeWord]
  have h1 : storeWord mem addr data (addr + 1) = data / 256 % 256 := by
    simp [storeWord]
  have h2 : storeWord mem addr data (addr + 2) = data / 65536 % 256 := by
    simp [storeWord]
  have h3 : storeWord mem addr data (addr + 3) = data / 16777216 % 256 := by
    simp [storeWord]
  rw [readWord, h0, h1, h2, h3]
  omega

theorem stosl_inside (cnt : Nat) : ∀ (mem : Mem) (addr data i : Nat),
    i < cnt → readWord (stosl mem addr data cnt) (addr + 4 * i) = data % 4294967296 := by
  induction cnt with
  | zero => intro mem addr data i h; omega
  | succ n ih =>
    intro mem addr data i h
    show readWord (stosl (storeWord mem addr data) (addr + 4) data n) (addr + 4 * i) = _
    match i with
    | 0 =>
      have hout : ∀ j, j < 4 →
          stosl (storeWord mem addr data) (addr + 4) data n (addr + j) =
            storeWord mem addr data (addr + j) := by
        intro j hj
        exact stosl_outside n _ (addr + 4) data (addr + j) (by omega)
      have e0 := hout 0 (by omega)
      have e1 := hout 1 (by omega)
      have e2 := hout 2 (by omega)
      have e3 := hout 3 (by omega)
      simp only [Nat.add_zero] at e0
      simp only [Nat.mul_zero, Nat.add_zero, readWord]
      rw [e0, e1, e2, e3, ← readWord_storeWord mem addr data, readWord]
    | j + 1 =>
      have : addr + 4 * (j + 1) = (addr + 4) + 4 * j := by omega
      rw [this]
      exact ih _ (addr + 4) data j (by omega)

/-- Claim C4: for every count, stosb fills every byte of
[addr, addr+cnt) with the low byte of the fill value and leaves all
other memory unmodified; stosl fills every 4-byte word of
[addr, addr+4*cnt) with the 32-bit fill value (cnt counts words, not
bytes) and leaves all other memory unmodified; count 0 is a no-op for
both. -/
theorem fill_contract (mem : Mem) (addr data cnt : Nat) :
    (∀ a, addr ≤ a → a < addr + cnt → stosb mem addr data cnt a = data % 256) ∧
    (∀ a, a < addr ∨ addr + cnt ≤ a → stosb mem addr data cnt a = mem a) ∧
    (∀ i, i < cnt →
      readWord (stosl mem addr data cnt) (addr + 4 * i) = data % 4294967296) ∧
    (∀ a, a < addr ∨ addr + 4 * cnt ≤ a → stosl mem addr data cnt a = mem a) ∧
    stosb mem addr data 0 = mem ∧ stosl mem addr data 0 = mem :=
  ⟨fun a h1 h2 => stosb_inside cnt mem addr data a h1 h2,
   fun a h => stosb_outside cnt mem addr data a h,
   fun i h => stosl_inside cnt mem addr data i h,
   fun a h => stosl_outside cnt mem addr data a h,
   rfl, rfl⟩

/-- Witness for fill_contract: a fill of 3 bytes of value 0x1FF
starting at address 10 over all-zero memory writes 0xFF at address 11,
leaves address 13 at zero, and a 2-word stosl of value 2^32 + 5 writes
word 5 at address 10 + 4 and leaves byte 18 at zero. -/
theorem fill_contract_witness :
    stosb (fun _ => 0) 10 511 3 11 = 511 % 256 ∧
    stosb (fun _ => 0) 10 511 3 13 = (fun _ => (0 : Nat)) 13 ∧
    readWord (stosl (fun _ => 0) 10 4294967301 2) (10 + 4 * 1) =
      4294967301 % 4294967296 ∧
    stosl (fun _ => 0) 10 4294967301 2 18 = (fun _ => (0 : Nat)) 18 :=
  ⟨(fill_contract (fun _ => 0) 10 511 3).1 11 (by decide) (by decide),
   (fill_contract (fun _ => 0) 10 511 3).2.1 13 (by decide),
   (fill_contract (fun _ => 0) 10 4294967301 2).2.2.1 1 (by decide),
   (fill_contract (fun _ => 0) 10 4294967301 2).2.2.2.1 18 (by decide)⟩

/-- Claim C10: stosb truncates its int-typed value argument to its low
byte, so filling with data and with data mod 256 produce identical
memory states, for every memory, address and count. -/
theorem stosb_truncates (cnt : Nat) : ∀ (mem : Mem) (addr data : Nat),
    stosb mem addr data cnt = stosb mem addr (data % 256) cnt := by
  induction cnt with
  | zero => intro mem addr data; rfl
  | succ n ih =>
    intro mem addr data
    show stosb (fun a => if a = addr then data % 256 else mem a) (addr + 1) data n =
      stosb (fun a => if a = addr then data % 256 % 256 else mem a) (addr + 1) (data % 256) n
    rw [ih, Nat.mod_mod_of_dvd data (dvd_refl 256)]

/-- Processor state visible to the interrupt-flag primitives: the EFLAGS
register as a 32-bit value. Bit 9 (value 512) is the interrupt-enable
flag IF. -/
structure MachineState where
  eflags : Nat

/-- Interrupt-enable flag bit of an EFLAGS value: bit 9. -/
def ifBit (flags : Nat) : Nat := flags / 512 % 2

/-- Modelled from the spec: the body of cli in src/x86.h is the single
instruction `asm volatile("cli")`, whose effect the spec states as
clearing the global interrupt-enable flag; all other EFLAGS bits are
unchanged. -/
def cli (s : MachineState) : MachineState :=
  ⟨s.eflags % 512 + 1024 * (s.eflags / 1024)⟩

/-- Modelled from the spec: the body of sti in src/x86.h is the single
instruction `asm volatile("sti")`, whose effect the spec states as
setting the global interrupt-enable flag; all other EFLAGS bits are
unchanged. -/
def sti (s : MachineState) : MachineState :=
  ⟨s.eflags % 512 + 512 + 1024 * (s.eflags / 1024)⟩

/-- Semantics of readeflags in src/x86.h: push the flags register and
pop it into the return value, with no other effect. -/
def readeflags (s : MachineState) : Nat := s.eflags

/-- Claim C5 counterexample: cli followed by sti does not restore the
interrupt-enable flag for every initial state, because sti sets the
flag unconditionally: starting from EFLAGS = 0 (flag clear), after
cli then sti the flag reads 1, not 0. -/
theorem cli_sti_not_restoring :
    ¬ (∀ s : MachineState,
        ifBit (readeflags (sti (cli s))) = ifBit (readeflags s)) :=
  fun h => absurd (h ⟨0⟩) (by decide)

/-- Claim C5 amended: when the interrupt-enable flag was set before the
cli, executing cli followed immediately by sti restores the flag bit of
EFLAGS, as observed via readeflags, to its pre-cli value; for an
initially clear flag the pair instead leaves the flag set. -/
theorem cli_sti_restores_when_set (s : MachineState)
    (h : ifBit (readeflags s) = 1) :
    ifBit (readeflags (sti (cli s))) = ifBit (readeflags s) := by
  rw [h]
  simp only [ifBit, readeflags, sti, cli]
  omega

/-- Witness for cli_sti_restores_when_set at EFLAGS = 0x202 (flag set
plus one reserved bit). -/
theorem cli_sti_restores_witness :
    ifBit (readeflags (sti (cli ⟨514⟩))) = ifBit (readeflags ⟨514⟩) :=
  cli_sti_restores_when_set ⟨514⟩ (by decide)

/-- Word-addressed view for the atomic exchange: xchg operates on one
aligned 32-bit location, so memory is modelled as a map from location
address to the 32-bit value stored there. -/
def WMem : Type := Nat → Nat

/-- Semantics of xchg in src/x86.h (`lock; xchgl %0, %1` with operands
"+m" (*addr) and "=a" (result), input "1" (newval)): the instruction
swaps the register holding newval with the memory location, so it
returns the old contents of *addr and leaves newval (a 32-bit uint)
stored there. -/
def xchg (mem : WMem) (addr newval : Nat) : Nat × WMem :=
  (mem addr, fun a => if a = addr then newval % 4294967296 else mem a)

/-- Claim C6: xchg stores newval into the location and returns the
value stored there immediately before the call; afterwards the location
holds newval and every other location is unmodified. -/
theorem xchg_contract (mem : WMem) (addr newval : Nat)
    (h : newval < 4294967296) :
    (xchg mem addr newval).1 = mem addr ∧
    (xchg mem addr newval).2 addr = newval ∧
    (∀ a, a ≠ addr → (xchg mem addr newval).2 a = mem a) := by
  refine ⟨rfl, ?_, ?_⟩
  · simp [xchg, Nat.mod_eq_of_lt h]
  · intro a ha
    simp [xchg, ha]

/-- Witness for xchg_contract: exchanging 7 into location 5 of the
memory that is 42 everywhere returns 42, stores 7 at 5 and leaves
location 6 at 42. -/
theorem xchg_contract_witness :
    (xchg (fun _ => 42) 5 7).1 = (fun _ => (42 : Nat)) 5 ∧
    (xchg (fun _ => 42) 5 7).2 5 = 7 ∧
    (∀ a, a ≠ 5 → (xchg (fun _ => 42) 5 7).2 a = (fun _ => (42 : Nat)) a) :=
  xchg_contract (fun _ => 42) 5 7 (by decide)

/-- Semantics of `cld; rep outsl` in src/x86.h: each iteration reads
the 32-bit word at the address in ESI, sends it to the port, advances
ESI by four and decrements ECX. The asm declares no memory clobber and
only reads through the source pointer, so the memory state is threaded
through every iteration unchanged; the first component is the sequence
of words sent to the port. -/
def outsl (mem : Mem) (port addr cnt : Nat) : List Nat × Mem :=
  match cnt with
  | 0 => ([], mem)
  | n + 1 =>
    let w := readWord mem addr
    let rest := outsl mem port (addr + 4) n
    (w :: rest.1, rest.2)

/-- Claim C8: outsl writes cnt 32-bit words from memory to the port —
word i of the output is the word read at addr + 4*i — while leaving the
source memory, and all other memory, unmodified. -/
theorem outsl_contract (mem : Mem) (port addr cnt : Nat) :
    (outsl mem port addr cnt).2 = mem ∧
    (outsl mem port addr cnt).1 =
      (List.range cnt).map (fun i => readWord mem (addr + 4 * i)) := by
  induction cnt generalizing addr with
  | zero => exact ⟨rfl, rfl⟩
  | succ n ih =>
    refine ⟨(ih (addr + 4)).1, ?_⟩
    show readWord mem addr :: (outsl mem port (addr + 4) n).1 = _
    rw [(ih (addr + 4)).2, List.range_succ_eq_map, List.map_cons,
      List.map_map, Nat.mul_zero, Nat.add_zero]
    refine congrArg _ (List.map_congr_left ?_)
    intro i _
    show readWord mem (addr + 4 + 4 * i) = readWord mem (addr + 4 * (i + 1))
    have : addr + 4 + 4 * i = addr + 4 * (i + 1) := by omega
    rw [this]
